import Mathlib

/-!
Verification of the pcurate package-curation tool (src/pcurate.py) against its
specification.

A row of the sqlite `packages` table is a `Package` value; sqlite `NULL` is
`Option.none`.  The table (whose `name` column is the PRIMARY KEY) is modelled
as a list of rows in insertion (rowid) order, `Store`.  The external
collaborators — the `pacman -Qei` installed listing, the `pacman -Qqen`
native-name listing, the `pacman -Sgq` group expansion and the `pacman -Qqe`
explicit-name listing — are passed in as explicit data.
-/

/-- A row of the `packages` table and equally a `Package` object
(`Package.__init__`): `curated` and `native` are sqlite integers, `tag` and
`description` sqlite text; every non-key column is nullable. -/
structure Package where
  name : String
  curated : Option Nat
  tag : Option String
  description : Option String
  native : Option Nat
deriving DecidableEq, Repr

/-- The `packages` table, rows in insertion (rowid) order. -/
abbrev Store := List Package

/-- sqlite `ifnull(x, y)`: `x` unless `x` is `NULL`, else `y`. -/
def ifnull {α : Type} : Option α → Option α → Option α
  | some v, _ => some v
  | none, y => y

/-- `Package.add`: `INSERT OR IGNORE INTO packages VALUES (:name, :curated,
:tag, :description, :native)` — ignored when a row with the same primary key
`name` already exists, otherwise the row is appended. -/
def Package.add (p : Package) (s : Store) : Store :=
  if s.any fun r => r.name == p.name then s else s ++ [p]

/-- `Package.modify`: `UPDATE packages SET curated = ifnull(:curated,curated),
tag = ifnull(:tag,tag), description = ifnull(:description,description),
native = ifnull(:native,native) WHERE name = :name`. -/
def Package.modify (p : Package) (s : Store) : Store :=
  s.map fun r =>
    if r.name == p.name then
      { r with
        curated := ifnull p.curated r.curated
        tag := ifnull p.tag r.tag
        description := ifnull p.description r.description
        native := ifnull p.native r.native }
    else r

/-- The body of `Database.repopulate`'s loop for one parsed
`Name`/`Description` record of the `pacman -Qei` output: `native` is the
number of `pacman -Qqen` lines equal to `name`; a non-curated row
`(name, 0, '', description, native)` is inserted with `Package.add`, and then
every row of the query `SELECT * FROM packages WHERE curated = 1 and
name = :name` is refreshed with `Package.modify` keeping its stored
`tag`/`description`. -/
def Database.processLine (nativelist : List String) (s : Store)
    (nd : String × String) : Store :=
  let name := nd.1
  let description := nd.2
  let native := nativelist.count name
  let s1 := Package.add ⟨name, some 0, some "", some description, some native⟩ s
  let o := s1.filter fun r => r.curated == some 1 && r.name == name
  o.foldl
    (fun acc row =>
      Package.modify ⟨name, some 1, row.tag, row.description, some native⟩ acc)
    s1

/-- `Database.repopulate`: first `DELETE FROM packages WHERE curated = 0`
(false on a NULL `curated`, so only rows whose `curated` is the integer 0 are
deleted), then the parsed `(Name, Description)` records of `pacman -Qei` are
processed in listing order. -/
def Database.repopulate (s : Store) (pkglist : List (String × String))
    (nativelist : List String) : Store :=
  pkglist.foldl (Database.processLine nativelist)
    (s.filter fun r => !(r.curated == some 0))

/-- `Database.filter`: `grp` maps a filter token to the member names printed
for it by `pacman -Sgq`; for every name among the group expansions of the
tokens followed by the literal tokens, the statement `DELETE FROM packages
WHERE name = :name and curated = 0` is executed. -/
def Database.filter (grp : String → List String) (tokens : List String)
    (s : Store) : Store :=
  ((tokens.map grp).flatten ++ tokens).foldl
    (fun acc name =>
      acc.filter fun r => !(r.name == name && r.curated == some 0))
    s

/-- `Database.missing`: the names accumulated in `result` — the rows of
`SELECT * FROM packages WHERE curated = 1 ORDER BY name` whose name is not
among the lines of `pacman -Qqe`. -/
def Database.missing (s : Store) (pkglist : List String) : List String :=
  let o := List.insertionSort (fun a b => a.name.data ≤ b.name.data)
    (s.filter fun r => r.curated == some 1)
  (o.filter fun r => !(pkglist.contains r.name)).map Package.name

/-- `Database.repopulate` with a fallible installed listing: the statement
`DELETE FROM packages WHERE curated = 0` has already executed when
`subprocess.check_output(['pacman', '-Qei'])` raises `CalledProcessError`, so
on failure the connection's pending state is the store with its non-curated
rows deleted and the exception propagates (`Except.error`). -/
def Database.repopulateExc (s : Store)
    (listing : Except Unit (List (String × String)))
    (nativelist : List String) : Except Store Store :=
  let s0 := s.filter fun r => !(r.curated == some 0)
  match listing with
  | Except.error _ => Except.error s0
  | Except.ok pkglist =>
    Except.ok (pkglist.foldl (Database.processLine nativelist) s0)

/-- `Database.close`: when `commit` is true (its default) the pending changes
are committed before the connection closes.  Returns the resulting on-disk
store. -/
def Database.close (onDisk pending : Store) (commit : Bool) : Store :=
  if commit then pending else onDisk

/-- An invocation (`__Control.output`/`__Control.display`) whose repopulation
hits a failing installed-listing collaborator: `Database.__exit__` runs
`self.close()` — `commit` at its default `True` — even while the exception is
propagating, and the exception then terminates the invocation.  Returns the
committed on-disk store and whether the invocation ended fatally. -/
def Control.invocationListingFailure (onDisk : Store)
    (nativelist : List String) : Store × Bool :=
  match Database.repopulateExc onDisk (Except.error ()) nativelist with
  | Except.error pending => (Database.close onDisk pending true, true)
  | Except.ok pending => (Database.close onDisk pending true, false)

/-- `__Control.display` with `--set` or `--unset`: it builds
`Package(args['PACKAGE_NAME'], args['--set'], args['--tag'], args['--desc'])`
— so `native` is left at the constructor default `0`, not `None` — then runs
`db.repopulate()` followed by `pkg.modify(db)`.  `setFlag` is 1 for `--set`
and 0 for `--unset` (the boolean `args['--set']` as stored by sqlite). -/
def Control.displaySetUnset (s : Store) (pkglist : List (String × String))
    (nativelist : List String) (pkgname : String) (setFlag : Nat)
    (tag description : Option String) : Store :=
  Package.modify ⟨pkgname, some setFlag, tag, description, some 0⟩
    (Database.repopulate s pkglist nativelist)

/-- A row of the alpha-era `packages` table, which lacked the `native`
column. -/
structure RowV0 where
  name : String
  curated : Option Nat
  tag : Option String
  description : Option String
deriving DecidableEq, Repr

/-- The state of the `packages` table inside the database file: absent (new
file), the 4-column alpha schema, or the current 5-column schema. -/
inductive TableState where
  | absent : TableState
  | v0 : List RowV0 → TableState
  | v1 : Store → TableState
deriving DecidableEq, Repr

/-- A database file: the persisted `PRAGMA user_version` integer and the
`packages` table. -/
structure DbFile where
  user_version : Nat
  table : TableState
deriving DecidableEq, Repr

/-- `Database.__init__`: `CREATE TABLE IF NOT EXISTS packages (...)` (5
columns) creates the table only when absent; a zero persisted `user_version`
is replaced by the current version 1; and when `PRAGMA table_info` reports 4
columns, `ALTER TABLE packages ADD COLUMN native integer` adds the `native`
column, whose value on every existing row is the column default `NULL`. -/
def Database.init (f : DbFile) : DbFile :=
  let t1 := match f.table with
    | TableState.absent => TableState.v1 []
    | t => t
  let current_db_version := 1
  let uv := if f.user_version = 0 then current_db_version else f.user_version
  let t2 := match t1 with
    | TableState.v0 rows =>
      TableState.v1 (rows.map fun r => ⟨r.name, r.curated, r.tag, r.description, none⟩)
    | t => t
  ⟨uv, t2⟩

/-- Invariant maintained by sqlite: `name` is the PRIMARY KEY of `packages`,
so row names are pairwise distinct. -/
abbrev namesNodup (s : Store) : Prop := (s.map Package.name).Nodup

/-- Data-model invariant of the spec: `curated` is a boolean stored as the
integer 0 or 1. -/
abbrev curatedWF (s : Store) : Prop :=
  ∀ r ∈ s, r.curated = some 0 ∨ r.curated = some 1

/-- Effect of one repopulation pass on a pre-existing row: a curated row whose
name occurs among the processed record names gets its `native` column set to
the `pacman -Qqen` occurrence count of its name; any other row is untouched. -/
def refreshNative (nativelist : List String) (pnames : List String)
    (r : Package) : Package :=
  if r.curated = some 1 ∧ r.name ∈ pnames then
    { r with native := some (nativelist.count r.name) }
  else r

/-- The non-curated rows appended by one repopulation pass: one row per first
occurrence of a record name not already present among `existing`. -/
def newRows : List String → List (String × String) → List String → Store
  | _, [], _ => []
  | existing, (n, d) :: rest, nativelist =>
    if n ∈ existing then newRows existing rest nativelist
    else ⟨n, some 0, some "", some d, some (nativelist.count n)⟩ ::
      newRows (n :: existing) rest nativelist

/-! Helper lemmas. -/

lemma ifnull_self {α : Type} (x : Option α) : ifnull x x = x := by
  cases x <;> rfl

lemma ifnull_none {α : Type} (y : Option α) : ifnull none y = y := rfl

lemma ifnull_some {α : Type} (v : α) (y : Option α) :
    ifnull (some v) y = some v := rfl

lemma Package.add_of_name_mem (p : Package) (s : Store)
    (h : ∃ r ∈ s, r.name = p.name) : Package.add p s = s := by
  obtain ⟨r, hr, he⟩ := h
  unfold Package.add
  rw [if_pos (List.any_eq_true.2 ⟨r, hr, by simp [he]⟩)]

lemma Package.add_of_name_not_mem (p : Package) (s : Store)
    (h : ∀ r ∈ s, r.name ≠ p.name) : Package.add p s = s ++ [p] := by
  unfold Package.add
  rw [if_neg]
  intro hc
  obtain ⟨r, hr, he⟩ := List.any_eq_true.1 hc
  exact h r hr (by simpa using he)

lemma Package.modify_map_name (p : Package) (s : Store) :
    (Package.modify p s).map Package.name = s.map Package.name := by
  unfold Package.modify
  rw [List.map_map]
  apply List.map_congr_left
  intro r _
  by_cases h : r.name = p.name <;> simp [h]

lemma refreshNative_name (nl pn : List String) (r : Package) :
    (refreshNative nl pn r).name = r.name := by
  unfold refreshNative
  split <;> rfl

lemma refreshNative_curated (nl pn : List String) (r : Package) :
    (refreshNative nl pn r).curated = r.curated := by
  unfold refreshNative
  split <;> rfl

lemma refreshNative_tag (nl pn : List String) (r : Package) :
    (refreshNative nl pn r).tag = r.tag := by
  unfold refreshNative
  split <;> rfl

lemma refreshNative_description (nl pn : List String) (r : Package) :
    (refreshNative nl pn r).description = r.description := by
  unfold refreshNative
  split <;> rfl

lemma refreshNative_of_not_curated (nl pn : List String) (r : Package)
    (h : r.curated ≠ some 1) : refreshNative nl pn r = r := by
  unfold refreshNative
  rw [if_neg]
  exact fun hc => h hc.1

lemma refreshNative_of_not_mem (nl pn : List String) (r : Package)
    (h : r.name ∉ pn) : refreshNative nl pn r = r := by
  unfold refreshNative
  rw [if_neg]
  exact fun hc => h hc.2

lemma refreshNative_nil (nl : List String) (r : Package) :
    refreshNative nl [] r = r :=
  refreshNative_of_not_mem nl [] r (by simp)

lemma refreshNative_idem (nl pn : List String) (r : Package) :
    refreshNative nl pn (refreshNative nl pn r) = refreshNative nl pn r := by
  unfold refreshNative
  by_cases h : r.curated = some 1 ∧ r.name ∈ pn
  · rw [if_pos h]
    rw [if_pos h]
  · rw [if_neg h, if_neg h]

lemma refreshNative_comp (nl : List String) (n : String) (rest : List String)
    (r : Package) :
    refreshNative nl rest (refreshNative nl [n] r) =
      refreshNative nl (n :: rest) r := by
  by_cases hc : r.curated = some 1
  · by_cases hn : r.name = n
    · by_cases hr : r.name ∈ rest <;>
        simp [refreshNative, hc, hn, hr]
    · by_cases hr : r.name ∈ rest <;>
        simp [refreshNative, hc, hn, hr]
  · simp [refreshNative, hc]

lemma map_refreshNative_name (nl pn : List String) (s : Store) :
    (s.map (refreshNative nl pn)).map Package.name = s.map Package.name := by
  rw [List.map_map]
  apply List.map_congr_left
  intro r _
  exact refreshNative_name nl pn r

lemma store_eq_of_name_eq (s : Store) (h : namesNodup s) (r₁ r₂ : Package)
    (h₁ : r₁ ∈ s) (h₂ : r₂ ∈ s) (he : r₁.name = r₂.name) : r₁ = r₂ :=
  List.inj_on_of_nodup_map h h₁ h₂ he

lemma filter_name_singleton (s : Store) (h : namesNodup s) (r₀ : Package)
    (hr : r₀ ∈ s) (n : String) (hn : r₀.name = n) :
    (s.filter fun r => r.name == n) = [r₀] := by
  induction s with
  | nil => cases hr
  | cons a t ih =>
    have hnd : a.name ∉ t.map Package.name ∧ namesNodup t := by
      simpa [namesNodup, List.nodup_cons] using h
    rcases List.mem_cons.1 hr with rfl | hmem
    · rw [List.filter_cons_of_pos (by simp [hn])]
      have : (t.filter fun r => r.name == n) = [] := by
        rw [List.filter_eq_nil_iff]
        intro b hb hbn
        exact hnd.1 (hn ▸ (by simpa using hbn) ▸ List.mem_map_of_mem Package.name hb)
      rw [this]
    · have han : a.name ≠ n := by
        intro he
        exact hnd.1 (he ▸ hn ▸ List.mem_map_of_mem Package.name hmem)
      rw [List.filter_cons_of_neg (by simp [han])]
      exact ih hnd.2 hmem

lemma map_refreshNative_eq_self (nl pn : List String) (s : Store)
    (h : ∀ r ∈ s, refreshNative nl pn r = r) :
    s.map (refreshNative nl pn) = s :=
  (List.map_congr_left (fun r hr => (h r hr).trans rfl)).trans (List.map_id s)

lemma processLine_eq (nl : List String) (s : Store) (n d : String)
    (h : namesNodup s) :
    Database.processLine nl s (n, d) =
      s.map (refreshNative nl [n]) ++
        (if n ∈ s.map Package.name then []
         else [⟨n, some 0, some "", some d, some (nl.count n)⟩]) := by
  by_cases hn : n ∈ s.map Package.name
  · obtain ⟨r₀, hr₀, hname⟩ := List.mem_map.1 hn
    have hadd :
        Package.add ⟨n, some 0, some "", some d, some (nl.count n)⟩ s = s :=
      Package.add_of_name_mem _ _ ⟨r₀, hr₀, hname⟩
    rw [if_pos hn, List.append_nil]
    dsimp only [Database.processLine]
    rw [hadd]
    have ho : (s.filter fun r => r.curated == some 1 && r.name == n) =
        List.filter (fun r => r.curated == some 1)
          (s.filter fun r => r.name == n) :=
      (List.filter_filter _ _).symm
    rw [ho, filter_name_singleton s h r₀ hr₀ n hname]
    by_cases hc : r₀.curated = some 1
    · have hfo : List.filter (fun r => r.curated == some 1) [r₀] = [r₀] := by
        simp [hc]
      rw [hfo, List.foldl_cons, List.foldl_nil]
      unfold Package.modify
      apply List.map_congr_left
      intro r hr
      by_cases hrn : r.name = n
      · have hrr : r = r₀ :=
          store_eq_of_name_eq s h r r₀ hr hr₀ (hrn.trans hname.symm)
        subst hrr
        simp [refreshNative, hrn, hc, ifnull_self, ifnull_some]
      · simp [refreshNative, hrn]
    · have hfo : List.filter (fun r => r.curated == some 1) [r₀] = [] := by
        simp [hc]
      rw [hfo, List.foldl_nil]
      refine (map_refreshNative_eq_self nl [n] s fun r hr => ?_).symm
      by_cases hrn : r.name = n
      · have hrr : r = r₀ :=
          store_eq_of_name_eq s h r r₀ hr hr₀ (hrn.trans hname.symm)
        exact refreshNative_of_not_curated nl [n] r (hrr ▸ hc)
      · exact refreshNative_of_not_mem nl [n] r (by simp [hrn])
  · have hnotin : ∀ r ∈ s, r.name ≠ n := fun r hr he =>
      hn (he ▸ List.mem_map_of_mem Package.name hr)
    have hadd :
        Package.add ⟨n, some 0, some "", some d, some (nl.count n)⟩ s =
          s ++ [⟨n, some 0, some "", some d, some (nl.count n)⟩] :=
      Package.add_of_name_not_mem _ _ hnotin
    rw [if_neg hn]
    dsimp only [Database.processLine]
    rw [hadd]
    have h1 : (s.filter fun r => r.curated == some 1 && r.name == n) = [] := by
      rw [List.filter_eq_nil_iff]
      intro a ha
      simp only [Bool.and_eq_true, beq_iff_eq, not_and]
      exact fun _ => hnotin a ha
    have ho : ((s ++ [(⟨n, some 0, some "", some d, some (nl.count n)⟩ :
        Package)]).filter fun r => r.curated == some 1 && r.name == n) = [] := by
      rw [List.filter_append, h1]
      simp
    rw [ho, List.foldl_nil]
    rw [map_refreshNative_eq_self nl [n] s fun r hr =>
      refreshNative_of_not_mem nl [n] r (by simp [hnotin r hr])]

lemma newRows_congr (pkgs : List (String × String)) :
    ∀ e₁ e₂ nl, (∀ x, x ∈ e₁ ↔ x ∈ e₂) →
      newRows e₁ pkgs nl = newRows e₂ pkgs nl := by
  induction pkgs with
  | nil => intro e₁ e₂ nl _; rfl
  | cons hd rest ih =>
    intro e₁ e₂ nl hiff
    obtain ⟨n, d⟩ := hd
    simp only [newRows]
    by_cases hn : n ∈ e₁
    · rw [if_pos hn, if_pos ((hiff n).1 hn)]
      exact ih e₁ e₂ nl hiff
    · rw [if_neg hn, if_neg (fun hc => hn ((hiff n).2 hc))]
      rw [ih (n :: e₁) (n :: e₂) nl (by intro x; simp [hiff x])]

lemma newRows_curated (pkgs : List (String × String)) :
    ∀ e nl r, r ∈ newRows e pkgs nl → r.curated = some 0 := by
  induction pkgs with
  | nil => intro e nl r hr; cases hr
  | cons hd rest ih =>
    intro e nl r hr
    obtain ⟨n, d⟩ := hd
    simp only [newRows] at hr
    by_cases hn : n ∈ e
    · rw [if_pos hn] at hr
      exact ih e nl r hr
    · rw [if_neg hn] at hr
      rcases List.mem_cons.1 hr with rfl | hr2
      · rfl
      · exact ih (n :: e) nl r hr2

lemma newRows_names (pkgs : List (String × String)) :
    ∀ e nl, ((newRows e pkgs nl).map Package.name).Nodup ∧
      ∀ x ∈ (newRows e pkgs nl).map Package.name, x ∉ e := by
  induction pkgs with
  | nil => intro e nl; simp [newRows]
  | cons hd rest ih =>
    intro e nl
    obtain ⟨n, d⟩ := hd
    simp only [newRows]
    by_cases hn : n ∈ e
    · rw [if_pos hn]
      exact ih e nl
    · rw [if_neg hn]
      obtain ⟨ihn, ihf⟩ := ih (n :: e) nl
      constructor
      · rw [List.map_cons, List.nodup_cons]
        exact ⟨fun hc => (ihf n hc) (List.mem_cons_self n e), ihn⟩
      · intro x hx
        rw [List.map_cons] at hx
        rcases List.mem_cons.1 hx with rfl | hx2
        · exact hn
        · exact fun hc => (ihf x hx2) (List.mem_cons_of_mem n hc)

lemma namesNodup_append_fresh (s : Store) (n d : String) (nl : List String)
    (h : namesNodup s) (hn : n ∉ s.map Package.name) :
    namesNodup (s ++ [(⟨n, some 0, some "", some d, some (nl.count n)⟩ :
      Package)]) := by
  show ((s ++ _).map Package.name).Nodup
  rw [List.map_append, List.nodup_append]
  refine ⟨h, by simp, ?_⟩
  intro a ha hb
  simp only [List.map_cons, List.map_nil, List.mem_singleton] at hb
  exact hn (hb ▸ ha)

lemma namesNodup_map_refreshNative (nl pn : List String) (s : Store)
    (h : namesNodup s) : namesNodup (s.map (refreshNative nl pn)) := by
  show ((s.map (refreshNative nl pn)).map Package.name).Nodup
  rw [map_refreshNative_name]
  exact h

lemma namesNodup_processLine (nl : List String) (s : Store) (n d : String)
    (h : namesNodup s) : namesNodup (Database.processLine nl s (n, d)) := by
  rw [processLine_eq nl s n d h]
  by_cases hn : n ∈ s.map Package.name
  · rw [if_pos hn, List.append_nil]
    exact namesNodup_map_refreshNative nl [n] s h
  · rw [if_neg hn]
    show ((List.map (refreshNative nl [n]) s ++ _).map Package.name).Nodup
    rw [List.map_append, map_refreshNative_name, List.nodup_append]
    refine ⟨h, by simp, ?_⟩
    intro a ha hb
    simp only [List.map_cons, List.map_nil, List.mem_singleton] at hb
    exact hn (hb ▸ ha)

lemma foldl_processLine_eq (nl : List String) (pkgs : List (String × String)) :
    ∀ s : Store, namesNodup s →
      pkgs.foldl (Database.processLine nl) s =
        s.map (refreshNative nl (pkgs.map Prod.fst)) ++
          newRows (s.map Package.name) pkgs nl := by
  induction pkgs with
  | nil =>
    intro s _
    simp only [List.foldl_nil, List.map_nil, newRows, List.append_nil]
    exact (map_refreshNative_eq_self nl [] s fun r _ => refreshNative_nil nl r).symm
  | cons hd rest ih =>
    intro s h
    obtain ⟨n, d⟩ := hd
    rw [List.foldl_cons, processLine_eq nl s n d h]
    by_cases hn : n ∈ s.map Package.name
    · rw [if_pos hn, List.append_nil]
      rw [ih (s.map (refreshNative nl [n]))
        (by rw [namesNodup, map_refreshNative_name]; exact h)]
      rw [map_refreshNative_name, List.map_map]
      have hcomp : s.map (refreshNative nl (rest.map Prod.fst) ∘ refreshNative nl [n]) =
          s.map (refreshNative nl (n :: rest.map Prod.fst)) :=
        List.map_congr_left fun r _ => refreshNative_comp nl n (rest.map Prod.fst) r
      rw [hcomp]
      simp only [List.map_cons, newRows]
      rw [if_pos hn]
    · rw [if_neg hn]
      have hnd2 : namesNodup (s.map (refreshNative nl [n]) ++
          [(⟨n, some 0, some "", some d, some (nl.count n)⟩ : Package)]) := by
        refine namesNodup_append_fresh _ n d nl
          (namesNodup_map_refreshNative nl [n] s h) ?_
        rw [map_refreshNative_name]
        exact hn
      rw [ih _ hnd2]
      rw [List.map_append, List.map_map, List.map_append, map_refreshNative_name]
      have hcomp : s.map (refreshNative nl (rest.map Prod.fst) ∘ refreshNative nl [n]) =
          s.map (refreshNative nl (n :: rest.map Prod.fst)) :=
        List.map_congr_left fun r _ => refreshNative_comp nl n (rest.map Prod.fst) r
      rw [hcomp]
      have hrow : ([(⟨n, some 0, some "", some d, some (nl.count n)⟩ : Package)]).map
          (refreshNative nl (rest.map Prod.fst)) =
          [(⟨n, some 0, some "", some d, some (nl.count n)⟩ : Package)] := by
        simp [refreshNative]
      rw [hrow]
      simp only [List.map_cons, List.map_nil, newRows]
      rw [if_neg hn]
      have hcg : newRows (s.map Package.name ++ [n]) rest nl =
          newRows (n :: s.map Package.name) rest nl :=
        newRows_congr rest _ _ nl (by intro x; simp [or_comm])
      rw [hcg]
      simp

lemma namesNodup_filter (p : Package → Bool) (s : Store) (h : namesNodup s) :
    namesNodup (s.filter p) :=
  List.Nodup.sublist (List.Sublist.map Package.name (List.filter_sublist s)) h

lemma repopulate_eq (s : Store) (pkgs : List (String × String))
    (nl : List String) (h : namesNodup s) :
    Database.repopulate s pkgs nl =
      (s.filter fun r => !(r.curated == some 0)).map
          (refreshNative nl (pkgs.map Prod.fst)) ++
        newRows ((s.filter fun r => !(r.curated == some 0)).map Package.name)
          pkgs nl :=
  foldl_processLine_eq nl pkgs _ (namesNodup_filter _ s h)

lemma mem_zip_map (f : Package → Package) (s : Store) (r r' : Package)
    (h : (r, r') ∈ s.zip (s.map f)) : r' = f r := by
  induction s with
  | nil => cases h
  | cons a t ih =>
    rw [List.map_cons, List.zip_cons_cons] at h
    rcases List.mem_cons.1 h with he | hm
    · injection he with h1 h2
      rw [h1, h2]
    · exact ih hm

/-- C3: for every existing row and every patch call (`Package.modify`), only
the fields supplied with a non-NULL value change: a field passed as NULL keeps
its stored value, and a patch whose name matches no row leaves the store
unchanged (a no-op, not an error). -/
theorem modify_patch_semantics (p : Package) (s : Store) :
    ((∀ r ∈ s, r.name ≠ p.name) → Package.modify p s = s) ∧
    ∀ rr ∈ s.zip (Package.modify p s),
      (rr.1.name ≠ p.name → rr.2 = rr.1) ∧
      (rr.1.name = p.name →
        rr.2.name = rr.1.name ∧
        (p.curated = none → rr.2.curated = rr.1.curated) ∧
        (∀ x, p.curated = some x → rr.2.curated = some x) ∧
        (p.tag = none → rr.2.tag = rr.1.tag) ∧
        (∀ x, p.tag = some x → rr.2.tag = some x) ∧
        (p.description = none → rr.2.description = rr.1.description) ∧
        (∀ x, p.description = some x → rr.2.description = some x) ∧
        (p.native = none → rr.2.native = rr.1.native) ∧
        (∀ x, p.native = some x → rr.2.native = some x)) := by
  constructor
  · intro hnone
    unfold Package.modify
    refine (List.map_congr_left ?_).trans (List.map_id s)
    intro r hr
    simp [hnone r hr]
  · rintro ⟨r, r'⟩ hrr
    have h2 : r' = if r.name == p.name then
        { r with
          curated := ifnull p.curated r.curated
          tag := ifnull p.tag r.tag
          description := ifnull p.description r.description
          native := ifnull p.native r.native }
      else r :=
      mem_zip_map
        (fun q =>
          if q.name == p.name then
            { q with
              curated := ifnull p.curated q.curated
              tag := ifnull p.tag q.tag
              description := ifnull p.description q.description
              native := ifnull p.native q.native }
          else q) s r r' hrr
    constructor
    · intro hne
      rw [h2, if_neg (by simpa using hne)]
    · intro he
      rw [h2, if_pos (by simpa using he)]
      refine ⟨rfl, ?_, ?_, ?_, ?_, ?_, ?_, ?_, ?_⟩
      · intro h0; rw [h0]; rfl
      · intro x hx; rw [hx]; rfl
      · intro h0; rw [h0]; rfl
      · intro x hx; rw [hx]; rfl
      · intro h0; rw [h0]; rfl
      · intro x hx; rw [hx]; rfl
      · intro h0; rw [h0]; rfl
      · intro x hx; rw [hx]; rfl

theorem modify_patch_semantics_witness :
    ((∀ r ∈ ([⟨"foo", some 1, some "a", some "b", some 1⟩] : Store),
        r.name ≠ "bar") →
      Package.modify ⟨"bar", none, none, some "x", none⟩
          [⟨"foo", some 1, some "a", some "b", some 1⟩] =
        [⟨"foo", some 1, some "a", some "b", some 1⟩]) ∧
    ∀ rr ∈ ([⟨"foo", some 1, some "a", some "b", some 1⟩] : Store).zip
        (Package.modify ⟨"foo", none, none, some "x", none⟩
          [⟨"foo", some 1, some "a", some "b", some 1⟩]),
      (rr.1.name ≠ "foo" → rr.2 = rr.1) ∧
      (rr.1.name = "foo" →
        rr.2.name = rr.1.name ∧
        ((none : Option Nat) = none → rr.2.curated = rr.1.curated) ∧
        (∀ x, (none : Option Nat) = some x → rr.2.curated = some x) ∧
        ((none : Option String) = none → rr.2.tag = rr.1.tag) ∧
        (∀ x, (none : Option String) = some x → rr.2.tag = some x) ∧
        ((some "x" : Option String) = none → rr.2.description = rr.1.description) ∧
        (∀ x, (some "x" : Option String) = some x → rr.2.description = some x) ∧
        ((none : Option Nat) = none → rr.2.native = rr.1.native) ∧
        (∀ x, (none : Option Nat) = some x → rr.2.native = some x)) :=
  ⟨(modify_patch_semantics ⟨"bar", none, none, some "x", none⟩ _).1,
   (modify_patch_semantics ⟨"foo", none, none, some "x", none⟩ _).2⟩

/-- C8: `Package.add` inserts the record only when no row with that name
exists; when a row with that name already exists (curated or not), every
field of the existing row is left unchanged. -/
theorem add_upsert_semantics (p : Package) (s : Store) :
    ((∃ r ∈ s, r.name = p.name) → Package.add p s = s) ∧
    ((∀ r ∈ s, r.name ≠ p.name) → Package.add p s = s ++ [p]) :=
  ⟨Package.add_of_name_mem p s, Package.add_of_name_not_mem p s⟩

theorem add_upsert_semantics_witness :
    (Package.add ⟨"foo", some 0, some "", some "x", some 0⟩
        [⟨"foo", some 1, some "t", some "d", some 1⟩] =
      [⟨"foo", some 1, some "t", some "d", some 1⟩]) ∧
    (Package.add ⟨"bar", some 0, some "", some "x", some 0⟩
        [⟨"foo", some 1, some "t", some "d", some 1⟩] =
      [⟨"foo", some 1, some "t", some "d", some 1⟩,
       ⟨"bar", some 0, some "", some "x", some 0⟩]) :=
  ⟨(add_upsert_semantics ⟨"foo", some 0, some "", some "x", some 0⟩ _).1
      ⟨⟨"foo", some 1, some "t", some "d", some 1⟩, by decide, by decide⟩,
   (add_upsert_semantics ⟨"bar", some 0, some "", some "x", some 0⟩ _).2
      (by decide)⟩

/-- C9: a set or unset action through the control layer builds the `Package`
with `native` at its constructor default 0 (not NULL), so `Package.modify`'s
`ifnull` merge overwrites the stored `native` with 0 on every row named
`pkgname` instead of leaving it unchanged. -/
theorem control_set_unset_clobbers_native (s : Store)
    (pkglist : List (String × String)) (nativelist : List String)
    (pkgname : String) (setFlag : Nat) (tag description : Option String) :
    ∀ r ∈ Control.displaySetUnset s pkglist nativelist pkgname setFlag
        tag description,
      r.name = pkgname → r.native = some 0 := by
  intro r hr he
  unfold Control.displaySetUnset Package.modify at hr
  obtain ⟨a, _, rfl⟩ := List.mem_map.1 hr
  by_cases han : a.name = pkgname
  · rw [if_pos (by simpa using han)]
    rfl
  · rw [if_neg (by simpa using han)] at he ⊢
    exact absurd he han

theorem control_set_unset_clobbers_native_witness :
    (⟨"p", some 1, some "t", some "d", some 0⟩ : Package).native = some 0 :=
  control_set_unset_clobbers_native
    [⟨"p", some 0, some "", some "d", some 1⟩] [("p", "d")] ["p"] "p" 1
    (some "t") none ⟨"p", some 1, some "t", some "d", some 0⟩ (by decide) rfl

/-- C10: opening a store whose `packages` table has the older 4-column schema
(no `native` column) adds the column with its default (NULL) while preserving
every existing row and its other fields, and a zero persisted schema version
is normalized to the current version 1 on open without discarding data. -/
theorem database_init_migration (uv : Nat) (rows : List RowV0) :
    Database.init ⟨uv, TableState.v0 rows⟩ =
      ⟨if uv = 0 then 1 else uv,
       TableState.v1 (rows.map fun r =>
         ⟨r.name, r.curated, r.tag, r.description, none⟩)⟩ := rfl

/-- C1 (refuting evaluation): when the installed-listing collaborator fails
during repopulation, the invocation is fatal, yet the committed store has its
non-curated rows deleted and not rebuilt — `Database.__exit__` commits the
partial delete.  Evaluated on a store holding one non-curated row (deleted
from the commit) and on a store also holding a curated row (only the curated
row survives in the commit). -/
theorem listing_failure_commits_incomplete_delete :
    Control.invocationListingFailure
        [⟨"pkgA", some 0, some "", some "descA", some 1⟩] [] = ([], true) ∧
    Control.invocationListingFailure
        [⟨"keep", some 1, some "t", some "d", some 0⟩,
         ⟨"pkgA", some 0, some "", some "descA", some 1⟩] [] =
      ([⟨"keep", some 1, some "t", some "d", some 0⟩], true) := by
  exact ⟨rfl, rfl⟩

lemma delete_pred_iff (n : String) (r : Package) :
    ((!(r.name == n && r.curated == some 0)) = true) ↔
      ¬(r.name = n ∧ r.curated = some 0) := by
  cases h1 : r.name == n <;> cases h2 : r.curated == some 0 <;>
    simp_all

lemma mem_filter_foldl (names : List String) :
    ∀ (s : Store) (r : Package),
      (r ∈ names.foldl (fun acc nm =>
          acc.filter fun x => !(x.name == nm && x.curated == some 0)) s) ↔
        (r ∈ s ∧ ¬(r.curated = some 0 ∧ r.name ∈ names)) := by
  induction names with
  | nil => intro s r; simp
  | cons n rest ih =>
    intro s r
    rw [List.foldl_cons, ih, List.mem_filter, delete_pred_iff]
    constructor
    · rintro ⟨⟨hs, hp⟩, hrest⟩
      refine ⟨hs, ?_⟩
      rintro ⟨hc, hm⟩
      rcases List.mem_cons.1 hm with he | hm2
      · exact hp ⟨he, hc⟩
      · exact hrest ⟨hc, hm2⟩
    · rintro ⟨hs, hno⟩
      refine ⟨⟨hs, ?_⟩, ?_⟩
      · rintro ⟨he, hc⟩
        exact hno ⟨hc, List.mem_cons.2 (Or.inl he)⟩
      · rintro ⟨hc, hm2⟩
        exact hno ⟨hc, List.mem_cons.2 (Or.inr hm2)⟩

/-- C4: filtering never removes a row with `curated = 1`; after filtering,
every non-curated row whose name equals a supplied filter token or a name
produced by group expansion of a token is absent from the store; rows
matching no token remain. -/
theorem filter_monotonicity (grp : String → List String)
    (tokens : List String) (s : Store) :
    (∀ r ∈ s, r.curated = some 1 → r ∈ Database.filter grp tokens s) ∧
    (∀ r ∈ s, r.curated = some 0 →
      (r.name ∈ tokens ∨ ∃ t ∈ tokens, r.name ∈ grp t) →
        r ∉ Database.filter grp tokens s) ∧
    (∀ r ∈ s, (r.name ∉ tokens ∧ ∀ t ∈ tokens, r.name ∉ grp t) →
        r ∈ Database.filter grp tokens s) := by
  unfold Database.filter
  refine ⟨?_, ?_, ?_⟩
  · intro r hr hc
    rw [mem_filter_foldl]
    refine ⟨hr, ?_⟩
    rintro ⟨h0, _⟩
    rw [hc] at h0
    simp at h0
  · intro r hr hc hm hmem
    rw [mem_filter_foldl] at hmem
    apply hmem.2
    refine ⟨hc, ?_⟩
    rw [List.mem_append]
    rcases hm with hm | ⟨t, ht, hg⟩
    · right; exact hm
    · left
      rw [List.mem_flatten]
      exact ⟨grp t, List.mem_map_of_mem grp ht, hg⟩
  · rintro r hr ⟨h1, h2⟩
    rw [mem_filter_foldl]
    refine ⟨hr, ?_⟩
    rintro ⟨_, hm⟩
    rw [List.mem_append] at hm
    rcases hm with hm | hm
    · rw [List.mem_flatten] at hm
      obtain ⟨l, hl, hx⟩ := hm
      obtain ⟨t, ht, rfl⟩ := List.mem_map.1 hl
      exact h2 t ht hx
    · exact h1 hm

theorem filter_monotonicity_witness :
    ((⟨"curkeep", some 1, some "t", some "d", some 1⟩ : Package) ∈
      Database.filter (fun t => if t = "base" then ["base-devel"] else [])
        ["base", "filter_one"]
        [⟨"base", some 0, some "", some "d", some 1⟩,
         ⟨"base-devel", some 0, some "", some "d", some 1⟩,
         ⟨"filter_one", some 0, some "", some "d", some 0⟩,
         ⟨"other", some 0, some "", some "d", some 0⟩,
         ⟨"curkeep", some 1, some "t", some "d", some 1⟩]) ∧
    ((⟨"base-devel", some 0, some "", some "d", some 1⟩ : Package) ∉
      Database.filter (fun t => if t = "base" then ["base-devel"] else [])
        ["base", "filter_one"]
        [⟨"base", some 0, some "", some "d", some 1⟩,
         ⟨"base-devel", some 0, some "", some "d", some 1⟩,
         ⟨"filter_one", some 0, some "", some "d", some 0⟩,
         ⟨"other", some 0, some "", some "d", some 0⟩,
         ⟨"curkeep", some 1, some "t", some "d", some 1⟩]) ∧
    ((⟨"other", some 0, some "", some "d", some 0⟩ : Package) ∈
      Database.filter (fun t => if t = "base" then ["base-devel"] else [])
        ["base", "filter_one"]
        [⟨"base", some 0, some "", some "d", some 1⟩,
         ⟨"base-devel", some 0, some "", some "d", some 1⟩,
         ⟨"filter_one", some 0, some "", some "d", some 0⟩,
         ⟨"other", some 0, some "", some "d", some 0⟩,
         ⟨"curkeep", some 1, some "t", some "d", some 1⟩]) :=
  by
  refine ⟨(filter_monotonicity _ _ _).1 _ (by decide) (by decide), ?_,
    (filter_monotonicity _ _ _).2.2 _ (by decide) ⟨by decide, by decide⟩⟩
  exact (filter_monotonicity _ _ _).2.1 _ (by decide) (by decide)
    (Or.inr ⟨"base", by decide, by decide⟩)

/-- C6: `Database.missing` returns exactly the names of curated rows absent
from the current installed listing: a curated row whose name is absent
appears, one whose name is present does not, and no name stems from a
non-curated row. -/
theorem missing_correct (s : Store) (pkglist : List String) (n : String) :
    n ∈ Database.missing s pkglist ↔
      ∃ r ∈ s, r.curated = some 1 ∧ r.name = n ∧ n ∉ pkglist := by
  unfold Database.missing
  constructor
  · intro hn
    obtain ⟨r, hr, rfl⟩ := List.mem_map.1 hn
    rw [List.mem_filter] at hr
    obtain ⟨hsort, hcont⟩ := hr
    rw [List.mem_insertionSort, List.mem_filter] at hsort
    exact ⟨r, hsort.1, by simpa using hsort.2, rfl, by simpa using hcont⟩
  · rintro ⟨r, hr, hc, rfl, hnp⟩
    apply List.mem_map.2
    refine ⟨r, ?_, rfl⟩
    rw [List.mem_filter]
    constructor
    · rw [List.mem_insertionSort, List.mem_filter]
      exact ⟨hr, by simp [hc]⟩
    · simpa using hnp

theorem missing_correct_witness :
    "alpha" ∈ Database.missing
      [⟨"beta", some 1, some "t", some "d", some 1⟩,
       ⟨"alpha", some 1, some "t", some "d", some 1⟩,
       ⟨"gamma", some 0, some "", some "d", some 1⟩] ["beta"] :=
  (missing_correct
      [⟨"beta", some 1, some "t", some "d", some 1⟩,
       ⟨"alpha", some 1, some "t", some "d", some 1⟩,
       ⟨"gamma", some 0, some "", some "d", some 1⟩] ["beta"] "alpha").2
    ⟨⟨"alpha", some 1, some "t", some "d", some 1⟩, by decide, by decide,
      by decide, by decide⟩

/-- C2: every record with `curated = 1` survives repopulation — it is never
deleted, its `tag` and `description` are never changed, and at most its
`native` field is refreshed to the occurrence count of its name in the
native-name listing. -/
theorem repopulate_curated_survival (s : Store)
    (pkgs : List (String × String)) (nl : List String) (h : namesNodup s)
    (r : Package) (hr : r ∈ s) (hc : r.curated = some 1) :
    ∃ r' ∈ Database.repopulate s pkgs nl,
      r'.name = r.name ∧ r'.curated = some 1 ∧ r'.tag = r.tag ∧
      r'.description = r.description ∧
      (r'.native = r.native ∨ r'.native = some (nl.count r.name)) := by
  rw [repopulate_eq s pkgs nl h]
  refine ⟨refreshNative nl (pkgs.map Prod.fst) r, ?_, ?_, ?_, ?_, ?_, ?_⟩
  · apply List.mem_append_left
    apply List.mem_map_of_mem
    rw [List.mem_filter]
    exact ⟨hr, by simp [hc]⟩
  · exact refreshNative_name nl _ r
  · rw [refreshNative_curated]; exact hc
  · exact refreshNative_tag nl _ r
  · exact refreshNative_description nl _ r
  · unfold refreshNative
    split
    · right; rfl
    · left; rfl

theorem repopulate_curated_survival_witness :
    ∃ r' ∈ Database.repopulate
        [⟨"keep", some 1, some "tg", some "ds", some 0⟩,
         ⟨"old", some 0, some "", some "od", some 1⟩]
        [("keep", "d2")] ["keep"],
      r'.name = "keep" ∧ r'.curated = some 1 ∧ r'.tag = some "tg" ∧
      r'.description = some "ds" ∧
      (r'.native = some 0 ∨ r'.native = some (List.count "keep" ["keep"])) :=
  repopulate_curated_survival _ _ _ (by decide)
    ⟨"keep", some 1, some "tg", some "ds", some 0⟩ (by decide) (by decide)

lemma newRows_filter_name (pkgs : List (String × String)) :
    ∀ (e nl : List String) (name desc : String), name ∉ e →
      (name, desc) ∈ pkgs → (pkgs.map Prod.fst).Nodup →
      (newRows e pkgs nl).filter (fun r => r.name == name) =
        [⟨name, some 0, some "", some desc, some (nl.count name)⟩] := by
  induction pkgs with
  | nil => intro e nl name desc _ hmem _; cases hmem
  | cons hd rest ih =>
    intro e nl name desc he hmem hnd
    obtain ⟨n, d⟩ := hd
    simp only [List.map_cons] at hnd
    by_cases hn : n = name
    · subst hn
      have hd_eq : d = desc := by
        rcases List.mem_cons.1 hmem with he2 | hm2
        · exact (congrArg Prod.snd he2).symm
        · exact absurd (List.mem_map_of_mem Prod.fst hm2)
            (List.nodup_cons.1 hnd).1
      subst hd_eq
      simp only [newRows]
      rw [if_neg he, List.filter_cons_of_pos (by simp)]
      have htail0 : (newRows (n :: e) rest nl).filter
          (fun r => r.name == n) = [] := by
        rw [List.filter_eq_nil_iff]
        intro a ha hbeq
        have hmm : a.name ∈ (newRows (n :: e) rest nl).map Package.name :=
          List.mem_map_of_mem Package.name ha
        refine (newRows_names rest (n :: e) nl).2 a.name hmm ?_
        rw [show a.name = n from by simpa using hbeq]
        exact List.mem_cons_self n e
      rw [htail0]
    · have hm2 : (name, desc) ∈ rest := by
        rcases List.mem_cons.1 hmem with he2 | hm2
        · exact absurd (congrArg Prod.fst he2).symm hn
        · exact hm2
      have htail : (rest.map Prod.fst).Nodup := (List.nodup_cons.1 hnd).2
      simp only [newRows]
      by_cases hne : n ∈ e
      · rw [if_pos hne]
        exact ih e nl name desc he hm2 htail
      · rw [if_neg hne, List.filter_cons_of_neg (by simp [hn])]
        refine ih (n :: e) nl name desc ?_ hm2 htail
        intro hx
        rcases List.mem_cons.1 hx with hx | hx
        · exact hn hx.symm
        · exact he hx

/-- C5: after repopulation, every listing record `(name, desc)` whose name
has no curated row yields exactly one non-curated stored row
`(name, 0, "", desc, native)`, where `native` is 1 when the name occurs in
the native-name listing and 0 otherwise. -/
theorem repopulate_inserts_listing (s : Store)
    (pkgs : List (String × String)) (nl : List String) (name desc : String)
    (hnd : namesNodup s) (hwf : curatedWF s)
    (hnc : ∀ r ∈ s, r.name = name → r.curated ≠ some 1)
    (hmem : (name, desc) ∈ pkgs) (hpn : (pkgs.map Prod.fst).Nodup)
    (hnl : nl.Nodup) :
    (Database.repopulate s pkgs nl).filter (fun r => r.name == name) =
      [⟨name, some 0, some "", some desc,
        some (if name ∈ nl then 1 else 0)⟩] := by
  have hcount : nl.count name = if name ∈ nl then 1 else 0 := by
    by_cases hx : name ∈ nl
    · rw [if_pos hx]
      exact List.count_eq_one_of_mem hnl hx
    · rw [if_neg hx]
      exact List.count_eq_zero_of_not_mem hx
  rw [repopulate_eq s pkgs nl hnd, List.filter_append]
  have hA : ∀ a ∈ (s.filter fun r => !(r.curated == some 0)),
      a.name ≠ name := by
    intro a ha
    rw [List.mem_filter] at ha
    intro he
    rcases hwf a ha.1 with h0 | h1
    · rw [h0] at ha
      simp at ha
    · exact hnc a ha.1 he h1
  have h1 : ((s.filter fun r => !(r.curated == some 0)).map
      (refreshNative nl (pkgs.map Prod.fst))).filter
      (fun r => r.name == name) = [] := by
    rw [List.filter_eq_nil_iff]
    intro b hb
    obtain ⟨a, ha, rfl⟩ := List.mem_map.1 hb
    simp only [refreshNative_name, beq_iff_eq]
    exact hA a ha
  have hnotin : name ∉ (s.filter fun r => !(r.curated == some 0)).map
      Package.name := by
    intro hx
    obtain ⟨a, ha, he⟩ := List.mem_map.1 hx
    exact hA a ha he
  rw [h1, List.nil_append,
    newRows_filter_name pkgs _ nl name desc hnotin hmem hpn, hcount]

theorem repopulate_inserts_listing_witness :
    (Database.repopulate [⟨"cur", some 1, some "t", some "d", some 0⟩]
        [("pkgA", "descA"), ("pkgB", "descB")] ["pkgA"]).filter
        (fun r => r.name == "pkgA") =
      [⟨"pkgA", some 0, some "", some "descA",
        some (if "pkgA" ∈ ["pkgA"] then 1 else 0)⟩] :=
  repopulate_inserts_listing [⟨"cur", some 1, some "t", some "d", some 0⟩]
    [("pkgA", "descA"), ("pkgB", "descB")] ["pkgA"] "pkgA" "descA"
    (by decide) (by decide) (by decide) (by decide) (by decide) (by decide)

/-- C7: repopulation is idempotent — for a fixed external snapshot, running
it twice leaves the whole store, and in particular the set of non-curated
rows, the same as running it once. -/
theorem repopulate_idempotent (s : Store) (pkgs : List (String × String))
    (nl : List String) (h : namesNodup s) :
    Database.repopulate (Database.repopulate s pkgs nl) pkgs nl =
        Database.repopulate s pkgs nl ∧
    (Database.repopulate (Database.repopulate s pkgs nl) pkgs nl).filter
        (fun r => r.curated == some 0) =
      (Database.repopulate s pkgs nl).filter
        (fun r => r.curated == some 0) := by
  have hA : namesNodup (s.filter fun r => !(r.curated == some 0)) :=
    namesNodup_filter _ s h
  have hAF : namesNodup ((s.filter fun r => !(r.curated == some 0)).map
      (refreshNative nl (pkgs.map Prod.fst))) :=
    namesNodup_map_refreshNative _ _ _ hA
  have h1 := repopulate_eq s pkgs nl h
  have hdel : (((s.filter fun r => !(r.curated == some 0)).map
        (refreshNative nl (pkgs.map Prod.fst)) ++
      newRows ((s.filter fun r => !(r.curated == some 0)).map Package.name)
        pkgs nl).filter fun r => !(r.curated == some 0)) =
      (s.filter fun r => !(r.curated == some 0)).map
        (refreshNative nl (pkgs.map Prod.fst)) := by
    rw [List.filter_append]
    have hN0 : ((newRows ((s.filter fun r => !(r.curated == some 0)).map
        Package.name) pkgs nl).filter fun r => !(r.curated == some 0)) = [] := by
      rw [List.filter_eq_nil_iff]
      intro a ha
      simp [newRows_curated pkgs _ nl a ha]
    have hA1 : (((s.filter fun r => !(r.curated == some 0)).map
        (refreshNative nl (pkgs.map Prod.fst))).filter
        fun r => !(r.curated == some 0)) =
        (s.filter fun r => !(r.curated == some 0)).map
          (refreshNative nl (pkgs.map Prod.fst)) := by
      rw [List.filter_eq_self]
      intro b hb
      obtain ⟨a, ha, rfl⟩ := List.mem_map.1 hb
      rw [List.mem_filter] at ha
      simpa [refreshNative_curated] using ha.2
    rw [hN0, hA1, List.append_nil]
  have key : Database.repopulate (Database.repopulate s pkgs nl) pkgs nl =
      Database.repopulate s pkgs nl := by
    rw [h1]
    unfold Database.repopulate
    rw [hdel, foldl_processLine_eq nl pkgs _ hAF, List.map_map,
      map_refreshNative_name]
    congr 1
    exact List.map_congr_left fun r _ => refreshNative_idem nl _ r
  exact ⟨key, by rw [key]⟩

theorem repopulate_idempotent_witness :
    Database.repopulate (Database.repopulate
        [⟨"keep", some 1, some "tg", some "ds", some 0⟩,
         ⟨"old", some 0, some "", some "od", some 1⟩]
        [("keep", "d2"), ("new", "nd")] ["new"])
        [("keep", "d2"), ("new", "nd")] ["new"] =
      Database.repopulate
        [⟨"keep", some 1, some "tg", some "ds", some 0⟩,
         ⟨"old", some 0, some "", some "od", some 1⟩]
        [("keep", "d2"), ("new", "nd")] ["new"] ∧
    (Database.repopulate (Database.repopulate
        [⟨"keep", some 1, some "tg", some "ds", some 0⟩,
         ⟨"old", some 0, some "", some "od", some 1⟩]
        [("keep", "d2"), ("new", "nd")] ["new"])
        [("keep", "d2"), ("new", "nd")] ["new"]).filter
        (fun r => r.curated == some 0) =
      (Database.repopulate
        [⟨"keep", some 1, some "tg", some "ds", some 0⟩,
         ⟨"old", some 0, some "", some "od", some 1⟩]
        [("keep", "d2"), ("new", "nd")] ["new"]).filter
        (fun r => r.curated == some 0) :=
  repopulate_idempotent
    [⟨"keep", some 1, some "tg", some "ds", some 0⟩,
     ⟨"old", some 0, some "", some "od", some 1⟩]
    [("keep", "d2"), ("new", "nd")] ["new"] (by decide)
